import Mathlib

/-!
Verification of the `send` actor framework (crates `send` and `send-derive`).

The framework routes typed messages through a statically-shaped tree of
"actors".  `Framework::send` builds a `MessageVisitor` and calls
`root.accept(&mut visitor)`; `accept` for a type derived with
`#[derive(Actor)]` (send-derive/src/lib.rs, `actor_struct`) calls
`visitor.visit(self)` and then `self.field.accept(visitor)` for every field
in declaration order, while the derive for an `enum` (`actor_enum`) matches
on the active variant and calls `accept` on that variant's fields only.
Container adapters (send/src/actor.rs) forward `accept` to their elements;
the blanket `impl<T> Actor for T` makes `accept` a no-op for every other
(scalar) type.

This file embeds those definitions and settles the specification claims
about traversal order, dispatch semantics, reentrancy, frame conditions,
the derived-payload path and termination.
-/

namespace Send

/-! ### Model A: actor shapes and the `accept` visit sequence

A `Shape` is the compile-time composition structure of a tree node, one
constructor per way the source equips a type with `accept`:

* `structS`  — a struct with `#[derive(Actor)]` (send-derive/src/lib.rs
  lines 27-58): `accept` offers the node itself (`visitor.visit(self)`),
  then calls `accept` on each field in declaration order.  `nid` labels
  the node so the visit sequence can be observed.
* `enumS`    — an enum with `#[derive(Actor)]` (send-derive/src/lib.rs
  lines 60-105): `accept` matches on the active variant and calls
  `accept` on that variant's fields in declaration order; the generated
  code contains no `visitor.visit(self)` call.  The `fields` list holds
  the fields of the variant currently held.
* `someS` / `noneS` — `Option<T>` (send/src/actor.rs lines 72-79).
* `okS` / `errS`    — `Result<T, E>` (send/src/actor.rs lines 81-89),
  exactly the side currently held.
* `boxS`     — `Box<T>` / `RefCell<T>` (send/src/actor.rs lines 91-94,
  159-162): forwards to the contents.
* `listS`    — ordered containers and tuples: `[T]`, `[T; N]`, `Vec`,
  `VecDeque`, `LinkedList`, tuples (send/src/actor.rs lines 96-244):
  `accept` on each element in iteration/positional order.
* `btreeS` / `hashS` — `BTreeMap<K, V>` / `HashMap<K, V>` (send/src/actor.rs
  lines 141-157): `for v in self { v.1.accept(visitor) }`, i.e. `accept`
  on the values in the map's iteration order; keys are never visited.
  The entry list is stored in the map's iteration order (for a `BTreeMap`
  that stored order is ascending by key, its structural invariant).
* `leafS`    — every other (leaf/scalar) type, via the blanket
  `unsafe impl<T> Actor for T { default fn accept(..) {} }`
  (send/src/actor.rs lines 46-51): `accept` does nothing — in
  particular, unlike what spec §4.1 step (a) demands, a leaf is never
  offered to the visitor.  `nid` labels the leaf node so the spec order
  can name it.
-/

mutual

inductive Shape : Type where
  | structS (nid : Nat) (fields : ShapeList)
  | enumS (nid : Nat) (fields : ShapeList)
  | someS (inner : Shape)
  | noneS
  | okS (inner : Shape)
  | errS (inner : Shape)
  | boxS (inner : Shape)
  | listS (elems : ShapeList)
  | btreeS (entries : EntryList)
  | hashS (entries : EntryList)
  | leafS (nid : Nat)

inductive ShapeList : Type where
  | nil
  | cons (hd : Shape) (tl : ShapeList)

inductive EntryList : Type where
  | enil
  | econs (key : Nat) (val : Shape) (tl : EntryList)

end

mutual

/-- Sequence of nodes offered to the visitor (`visitor.visit` calls), in
order, when `accept` runs over a shape.  Translated clause by clause from
the generated/adapter `accept` bodies cited on `Shape`.  The sequence does
not depend on the payload type: `MessageVisitor::visit` is invoked at every
offered node and recursion continues into children regardless of whether
the node reacted. -/
def Shape.acceptSeq : Shape → List Nat
  | .structS i fs => i :: ShapeList.acceptSeqL fs
  | .enumS _ fs => ShapeList.acceptSeqL fs
  | .someS s => Shape.acceptSeq s
  | .noneS => []
  | .okS s => Shape.acceptSeq s
  | .errS s => Shape.acceptSeq s
  | .boxS s => Shape.acceptSeq s
  | .listS es => ShapeList.acceptSeqL es
  | .btreeS es => EntryList.acceptSeqE es
  | .hashS es => EntryList.acceptSeqE es
  | .leafS _ => []

/-- Visit sequence of a field/element list, left to right. -/
def ShapeList.acceptSeqL : ShapeList → List Nat
  | .nil => []
  | .cons t ts => Shape.acceptSeq t ++ ShapeList.acceptSeqL ts

/-- Visit sequence of a map's entries in iteration order: the values are
accepted, the keys never are. -/
def EntryList.acceptSeqE : EntryList → List Nat
  | .enil => []
  | .econs _ v ts => Shape.acceptSeq v ++ EntryList.acceptSeqE ts

end

mutual

/-- Modelled from the spec: the pre-order visit sequence demanded by §4.1 —
every node first offers itself to the visitor (step (a)), then its
children in declared order (step (b)): a sum-typed (enum) node offers
itself before its active-variant fields, and a leaf/scalar node offers
itself too, its `accept` being "a no-op beyond step (a)"; containers
contribute their elements/values in iteration order. -/
def Shape.specPre : Shape → List Nat
  | .structS i fs => i :: ShapeList.specPreL fs
  | .enumS i fs => i :: ShapeList.specPreL fs
  | .someS s => Shape.specPre s
  | .noneS => []
  | .okS s => Shape.specPre s
  | .errS s => Shape.specPre s
  | .boxS s => Shape.specPre s
  | .listS es => ShapeList.specPreL es
  | .btreeS es => EntryList.specPreE es
  | .hashS es => EntryList.specPreE es
  | .leafS i => [i]

/-- Spec pre-order of a field list. -/
def ShapeList.specPreL : ShapeList → List Nat
  | .nil => []
  | .cons t ts => Shape.specPre t ++ ShapeList.specPreL ts

/-- Spec pre-order of map entries: values in iteration order. -/
def EntryList.specPreE : EntryList → List Nat
  | .enil => []
  | .econs _ v ts => Shape.specPre v ++ EntryList.specPreE ts

end

mutual

/-- Number of nodes §4.1 requires the traversal to offer to the visitor:
derived structs, derived enums and leaf/scalar values alike (the glossary
makes every position in the ownership tree a node); the containers are the
spec's declared-order enumeration of children, not nodes themselves. -/
def Shape.countNodes : Shape → Nat
  | .structS _ fs => 1 + ShapeList.countNodesL fs
  | .enumS _ fs => 1 + ShapeList.countNodesL fs
  | .someS s => Shape.countNodes s
  | .noneS => 0
  | .okS s => Shape.countNodes s
  | .errS s => Shape.countNodes s
  | .boxS s => Shape.countNodes s
  | .listS es => ShapeList.countNodesL es
  | .btreeS es => EntryList.countNodesE es
  | .hashS es => EntryList.countNodesE es
  | .leafS _ => 1

/-- Node count of a field list. -/
def ShapeList.countNodesL : ShapeList → Nat
  | .nil => 0
  | .cons t ts => Shape.countNodes t + ShapeList.countNodesL ts

/-- Node count of map entries. -/
def EntryList.countNodesE : EntryList → Nat
  | .enil => 0
  | .econs _ v ts => Shape.countNodes v + EntryList.countNodesE ts

end

mutual

/-- Number of derive-generated struct nodes in the shape — the nodes the
generated code actually offers to the visitor. -/
def Shape.countStructs : Shape → Nat
  | .structS _ fs => 1 + ShapeList.countStructsL fs
  | .enumS _ fs => ShapeList.countStructsL fs
  | .someS s => Shape.countStructs s
  | .noneS => 0
  | .okS s => Shape.countStructs s
  | .errS s => Shape.countStructs s
  | .boxS s => Shape.countStructs s
  | .listS es => ShapeList.countStructsL es
  | .btreeS es => EntryList.countStructsE es
  | .hashS es => EntryList.countStructsE es
  | .leafS _ => 0

/-- Struct-node count of a field list. -/
def ShapeList.countStructsL : ShapeList → Nat
  | .nil => 0
  | .cons t ts => Shape.countStructs t + ShapeList.countStructsL ts

/-- Struct-node count of map entries. -/
def EntryList.countStructsE : EntryList → Nat
  | .enil => 0
  | .econs _ v ts => Shape.countStructs v + EntryList.countStructsE ts

end

mutual

/-- Modelled from the spec, amended: the visit sequence in accumulator
form — a struct node offers itself and then its fields in declared order;
an enum node contributes only its active variant's fields, never itself;
a leaf/scalar node is never offered; containers are traversed
transparently in iteration order. -/
def Shape.amSpec : Shape → List Nat → List Nat
  | .structS i fs, acc => i :: ShapeList.amSpecL fs acc
  | .enumS _ fs, acc => ShapeList.amSpecL fs acc
  | .someS s, acc => Shape.amSpec s acc
  | .noneS, acc => acc
  | .okS s, acc => Shape.amSpec s acc
  | .errS s, acc => Shape.amSpec s acc
  | .boxS s, acc => Shape.amSpec s acc
  | .listS es, acc => ShapeList.amSpecL es acc
  | .btreeS es, acc => EntryList.amSpecE es acc
  | .hashS es, acc => EntryList.amSpecE es acc
  | .leafS _, acc => acc

/-- Accumulator visit sequence of a field list. -/
def ShapeList.amSpecL : ShapeList → List Nat → List Nat
  | .nil, acc => acc
  | .cons t ts, acc => Shape.amSpec t (ShapeList.amSpecL ts acc)

/-- Accumulator visit sequence of map entries. -/
def EntryList.amSpecE : EntryList → List Nat → List Nat
  | .enil, acc => acc
  | .econs _ v ts, acc => Shape.amSpec v (EntryList.amSpecE ts acc)

end

/-! ### Model B: dispatch with observable state

For the frame and no-op claims the tree is modelled as nested derived
structs.  Every node carries a `kind` (its Rust type: `Receiver` impls are
per type) and an observable `state` (its scalar fields).  A payload type
`P` is represented by its handler table `H : Nat → Option (Nat → Nat)`:
`H k = some f` when kind `k` has a specialized `Receiver<P, R>` impl whose
`receive(&mut self, ..)` updates the node's own scalar state by `f`, and
`H k = none` when only the blanket default no-op impl
(send/src/actor.rs lines 53-58) applies.  This is the fragment in which a
handler mutates only the node it runs on (`&mut self`), the shape of
every handler written through `receive!` that does not call back into its
`Context`; reentrant handlers are modelled separately for the scenario
claims. -/

mutual

inductive NTree : Type where
  | mk (kind state : Nat) (children : NForest)

inductive NForest : Type where
  | fnil
  | fcons (hd : NTree) (tl : NForest)

end

/-- Kind (Rust type) of a node. -/
def NTree.kind : NTree → Nat
  | .mk k _ _ => k

/-- Observable scalar state of a node. -/
def NTree.state : NTree → Nat
  | .mk _ s _ => s

/-- Effect of `MessageVisitor::visit` at one node (send/src/lib.rs lines
129-138): `actor.receive(message, context)` — the specialized handler if
the node's type has one, the blanket default no-op otherwise. -/
def recv (H : Nat → Option (Nat → Nat)) (k s : Nat) : Nat :=
  match H k with
  | some f => f s
  | none => s

mutual

/-- `Framework::send` (send/src/lib.rs lines 26-32): the visitor walks the
whole tree from the root; at every node `receive` runs on that node's own
state, and traversal continues into the children in declared order
regardless of whether the node reacted. -/
def bcast (H : Nat → Option (Nat → Nat)) : NTree → NTree
  | .mk k s cs => .mk k (recv H k s) (bcastF H cs)

/-- Broadcast over a child list in declared order. -/
def bcastF (H : Nat → Option (Nat → Nat)) : NForest → NForest
  | .fnil => .fnil
  | .fcons t ts => .fcons (bcast H t) (bcastF H ts)

end

/-- Child at an index of a forest. -/
def fget : NForest → Nat → Option NTree
  | .fnil, _ => none
  | .fcons t _, 0 => some t
  | .fcons _ ts, i + 1 => fget ts i

/-- Node of a tree at a path of child indices; a selector
`FnOnce(&mut R) -> &mut A` is a chain of field accesses from the root,
i.e. exactly such a path. -/
def getAt : List Nat → NTree → Option NTree
  | [], t => some t
  | i :: p, .mk _ _ cs =>
    match fget cs i with
    | some c => getAt p c
    | none => none

/-- Observable (kind, state) pair of the node at a path. -/
def obsAt (p : List Nat) (t : NTree) : Option (Nat × Nat) :=
  (getAt p t).map fun n => (NTree.kind n, NTree.state n)

/-- Replace the child at an index of a forest, leaving the rest alone. -/
def fmod (f : NTree → NTree) : Nat → NForest → NForest
  | _, .fnil => .fnil
  | 0, .fcons t ts => .fcons (f t) ts
  | i + 1, .fcons t ts => .fcons t (fmod f i ts)

/-- Apply a function to the node at a path, leaving every node off the
path untouched. -/
def modAt (f : NTree → NTree) : List Nat → NTree → NTree
  | [], t => f t
  | i :: p, .mk k s cs => .mk k s (fmod (modAt f p) i cs)

/-- Effect of visiting a single node (`visitor.visit(getter(&mut
self.root))`): `receive` runs on that node alone; its children are not
walked. -/
def visitOne (H : Nat → Option (Nat → Nat)) : NTree → NTree
  | .mk k s cs => .mk k (recv H k s) cs

/-- `Framework::send_to` (send/src/lib.rs lines 37-46): dispatch to the
single node the selector path reaches. -/
def sendTo (H : Nat → Option (Nat → Nat)) (p : List Nat) (t : NTree) : NTree :=
  modAt (visitOne H) p t

/-- `Framework::send_sub` (send/src/lib.rs lines 51-60):
`getter(&mut self.root).accept(&mut visitor)` — a full broadcast rooted at
the selected node. -/
def sendSub (H : Nat → Option (Nat → Nat)) (p : List Nat) (t : NTree) : NTree :=
  modAt (bcast H) p t

mutual

/-- Kinds (Rust types) of the nodes of a tree. -/
def kindsIn : NTree → List Nat
  | .mk k _ cs => k :: kindsInF cs

/-- Kinds of the nodes of a forest. -/
def kindsInF : NForest → List Nat
  | .fnil => []
  | .fcons t ts => kindsIn t ++ kindsInF ts

end

/-- True when `p` is an ancestor-or-self position of `q`: the subtree
rooted at `p` contains the node at `q`. -/
def leadsTo : List Nat → List Nat → Bool
  | [], _ => true
  | _ :: _, [] => false
  | i :: p, j :: q => i == j && leadsTo p q

/-- Rust trait resolution for the bound `A: Receiver<M, R>` at a node
type: the specialized impl when one exists, otherwise the blanket default
no-op impl `impl<M, R, T> Receiver<M, R> for T` (send/src/actor.rs lines
53-58).  Resolution never fails — `none` would mean the bound is
unsatisfiable and the call rejected at composition time. -/
def resolveReceiver (H : Nat → Option (Nat → Nat)) (k : Nat) : Option (Nat → Nat) :=
  match H k with
  | some f => some f
  | none => some id

/-! ### Message threading

`Framework::send` takes `message: &mut M` and `MessageVisitor` stores
`message: &'a mut M` (send/src/lib.rs lines 26-32, 124-127);
`Receiver::receive(&mut self, message: &mut T, ..)` (send/src/actor.rs
lines 37-40) hands every reacting node that same mutable reference.  The
dispatch therefore threads one message value through the traversal in
visit order, and each handler may replace it.  `HM k = some f` means kind
`k` reacts, `f` mapping (own state, current message) to (new state, new
message); `HM k = none` is the blanket no-op.  `sendM` returns the new
tree, the list of message values observed by the reacting nodes in visit
order, and the final message value. -/

mutual

def sendM (HM : Nat → Option (Nat → Nat → Nat × Nat)) : NTree → Nat → NTree × List Nat × Nat
  | .mk k s cs, m =>
    match HM k with
    | some f =>
      (.mk k (f s m).1 (sendMF HM cs (f s m).2).1,
        m :: (sendMF HM cs (f s m).2).2.1,
        (sendMF HM cs (f s m).2).2.2)
    | none =>
      (.mk k s (sendMF HM cs m).1, (sendMF HM cs m).2.1, (sendMF HM cs m).2.2)

def sendMF (HM : Nat → Option (Nat → Nat → Nat × Nat)) : NForest → Nat → NForest × List Nat × Nat
  | .fnil, m => (.fnil, [], m)
  | .fcons t ts, m =>
    (.fcons (sendM HM t m).1 (sendMF HM ts (sendM HM t m).2.2).1,
      (sendM HM t m).2.1 ++ (sendMF HM ts (sendM HM t m).2.2).2.1,
      (sendMF HM ts (sendM HM t m).2.2).2.2)

end

/-! ### Keyed containers and determinism -/

/-- Values of a map entry list, iteration order kept. -/
def EntryList.valuesE : EntryList → List Shape
  | .enil => []
  | .econs _ v ts => v :: EntryList.valuesE ts

/-- Visit sequence a list of values produces, left to right. -/
def seqOfValues (vs : List Shape) : List Nat :=
  (vs.map Shape.acceptSeq).flatten

/-- Insertion of an entry into a key-sorted entry list. -/
def insE (k : Nat) (v : Shape) : EntryList → EntryList
  | .enil => .econs k v .enil
  | .econs k' v' ts => if k ≤ k' then .econs k v (.econs k' v' ts) else .econs k' v' (insE k v ts)

/-- Insertion sort of an entry list by key — ascending key order, the
natural iteration order of a `BTreeMap`. -/
def sortE : EntryList → EntryList
  | .enil => .enil
  | .econs k v ts => insE k v (sortE ts)

/-- True when the stored entry order is strictly ascending by key — the
structural invariant a `BTreeMap` maintains. -/
def sortedE : EntryList → Bool
  | .enil => true
  | .econs _ _ .enil => true
  | .econs k _ (.econs k' v' ts) => k < k' && sortedE (.econs k' v' ts)

/-! ### The reference adapters

The adapter `unsafe impl<T> Actor for &T` (send/src/actor.rs lines 62-65)
has body `self.accept(visitor)` with `self: &mut &T`.  Rust method
resolution starts at the receiver's own type: the probe for candidate type
`&mut &T` taken by value matches `<&T as Actor>::accept`, whose self
parameter type is exactly `&mut &T` — the very method being defined, not
the referent's `accept`.  The same holds for `&mut T` (lines 67-70).  Each
call therefore immediately re-enters itself.  `refAccept fuel` runs that
body with an explicit stack budget: every call consumes one frame, `none`
means the call did not complete within the budget. -/
def refAccept : Nat → Option (List Nat)
  | 0 => none
  | fuel + 1 => refAccept fuel

/-! ### Concrete trees

The counters in the source are `u16`; addition and subtraction are
modelled with an explicit wrap at `2^16`. -/

/-- Wrapping `u16` addition. -/
def add16 (a b : Nat) : Nat := (a + b) % 65536

/-- Wrapping `u16` subtraction (for `a, b < 65536`). -/
def sub16 (a b : Nat) : Nat := (a + 65536 - b % 65536) % 65536

namespace ScenC

/-! Scenario C of spec §8 (claim C2): `Root { counter } -> Child { counter }
-> ChildChild { counter }`, all derived with `#[derive(Actor)]`.
`Root`, `Child` and `ChildChild` receive `Increment(n)` by `counter += n`;
`Child` also receives `Decrement(n)` by `counter -= n`; `ChildChild`'s
`Increment` handler additionally calls
`context.broadcast(self, &mut Decrement(1))`. -/

structure ChildChild where
  counter : Nat

structure Child where
  counter : Nat
  child : ChildChild

structure Root where
  counter : Nat
  child : Child

/-- `Context::broadcast` of `Decrement(n)` issued from inside a handler
(send/src/context.rs lines 27-38): the visitor re-enters at the root over
the current tree state.  Traversal in derive pre-order: `Root` (no
`Decrement` receiver — blanket no-op), `Child` (`counter -= n`),
`ChildChild` (no receiver — no-op). -/
def broadcastDec (n : Nat) (r : Root) : Root :=
  { r with child := { r.child with counter := sub16 r.child.counter n } }

/-- `Framework::send` of `Increment(n)` (send/src/lib.rs lines 26-32) in
derive pre-order: `Root` adds `n`, then `Child` adds `n`, then
`ChildChild` adds `n` and broadcasts `Decrement(1)` through its `Context`;
the nested dispatch runs to completion on the current tree state before
the outer traversal resumes (and `ChildChild` is the last node, so the
outer traversal then finishes). -/
def sendInc (n : Nat) (r : Root) : Root :=
  let r1 : Root := { r with counter := add16 r.counter n }
  let r2 : Root := { r1 with child := { r1.child with counter := add16 r1.child.counter n } }
  let r3 : Root :=
    { r2 with child := { r2.child with child := { counter := add16 r2.child.child.counter n } } }
  broadcastDec 1 r3

end ScenC

namespace TestTree

/-! The tree of send/tests/tests.rs (claim C7): `Root { data: Data, counter,
child: Child { counter, child: ChildChild { counter } } }`; `Data` does not
derive `Actor` (blanket no-op accept, non-reactive); `Root`, `Child` and
`ChildChild` all receive `Increment(n)` by `counter += n`. -/

structure Data where
  data : Nat

structure ChildChild where
  counter : Nat

structure Child where
  counter : Nat
  child : ChildChild

structure Root where
  data : Data
  counter : Nat
  child : Child

/-- `Framework::send` of `Increment(n)` over the test tree, derive
pre-order: `Root` (+n; its `data` and `counter` fields have the blanket
no-op `accept`), `Child` (+n), `ChildChild` (+n). -/
def sendInc (n : Nat) (r : Root) : Root :=
  let r1 : Root := { r with counter := add16 r.counter n }
  let r2 : Root := { r1 with child := { r1.child with counter := add16 r1.child.counter n } }
  { r2 with child := { r2.child with child := { counter := add16 r2.child.child.counter n } } }

/-- Selectable actors of the test tree: a getter
`FnOnce(&mut R) -> &mut A` is a chain of field accesses from the root. -/
inductive Target where
  | root
  | child
  | childchild

/-- `Framework::send_to` of `Increment(n)` (send/src/lib.rs lines 37-46):
`visitor.visit(getter(&mut self.root))` — `receive` runs on the selected
actor alone. -/
def sendIncTo (n : Nat) : Target → Root → Root
  | .root, r => { r with counter := add16 r.counter n }
  | .child, r => { r with child := { r.child with counter := add16 r.child.counter n } }
  | .childchild, r =>
    { r with child := { r.child with child := { counter := add16 r.child.child.counter n } } }

/-- `Framework::send_sub` of `Increment(n)` (send/src/lib.rs lines 51-60):
`getter(&mut self.root).accept(&mut visitor)` — a broadcast over the
selected subtree. -/
def sendIncSub (n : Nat) : Target → Root → Root
  | .root, r => sendInc n r
  | .child, r =>
    let r1 : Root := { r with child := { r.child with counter := add16 r.child.counter n } }
    { r1 with child := { r1.child with child := { counter := add16 r1.child.child.counter n } } }
  | .childchild, r =>
    { r with child := { r.child with child := { counter := add16 r.child.child.counter n } } }

/-- `Framework::send_with` (send/src/lib.rs lines 67-78): compute
`fields = selector(&mut self.root)` — the `F: NotActor` bound statically
checks the selected fields are non-reactive — then
`self.send(&mut creator(fields))`. -/
def sendWith {F : Type} (selector : Root → F) (creator : F → Nat) (r : Root) : Root :=
  let fields := selector r
  sendInc (creator fields) r

/-- `Framework::send_to_with` (send/src/lib.rs lines 86-96): the
non-reactivity check, then `send_to(creator(fields), getter)`. -/
def sendToWith {F : Type} (selector : Root → F) (creator : F → Nat)
    (getter : Target) (r : Root) : Root :=
  let fields := selector r
  sendIncTo (creator fields) getter r

/-- `Framework::send_sub_with` (send/src/lib.rs lines 104-114): the
non-reactivity check, then `send_sub(creator(fields), getter)`. -/
def sendSubWith {F : Type} (selector : Root → F) (creator : F → Nat)
    (getter : Target) (r : Root) : Root :=
  let fields := selector r
  sendIncSub (creator fields) getter r

end TestTree

/-! ### Concrete example values used by the witnesses below -/

/-- Handler table with no specialized impl anywhere: every type keeps the
blanket default no-op `receive`. -/
def Hnone : Nat → Option (Nat → Nat) := fun _ => none

/-- Handler table: kind 1 reacts by adding 10. -/
def Hex : Nat → Option (Nat → Nat) :=
  fun k => if k = 1 then some (fun s => s + 10) else none

/-- Handler table: kind 2 reacts by adding 1 (kind 1 has no capability). -/
def Hc6 : Nat → Option (Nat → Nat) :=
  fun k => if k = 2 then some (fun s => s + 1) else none

/-- Concrete three-node tree: a kind-1 root with a kind-1 child and a
kind-2 child. -/
def tEx : NTree :=
  .mk 1 0 (.fcons (.mk 1 5 .fnil) (.fcons (.mk 2 7 .fnil) .fnil))

/-- Message-mutating handler table: kind 0 bumps the message, kind 1 adds
the current message to its state. -/
def HMmut : Nat → Option (Nat → Nat → Nat × Nat) :=
  fun k =>
    if k = 0 then some (fun s m => (s, m + 1))
    else if k = 1 then some (fun s m => (s + m, m))
    else none

/-- Message-preserving handler table: kind 0 adds the current message to
its state and leaves the message alone. -/
def HMw : Nat → Option (Nat → Nat → Nat × Nat) :=
  fun k => if k = 0 then some (fun s m => (s + m, m)) else none

/-- Two-node tree for the message-threading claims: a kind-0 root with a
kind-1 child. -/
def tMut : NTree := .mk 0 0 (.fcons (.mk 1 0 .fnil) .fnil)

/-- Concrete shape: a derived struct root with a derived struct child
(holding a scalar leaf) and a list (Vec) of a struct and an optional
struct. -/
def exTreeA : Shape :=
  .structS 0
    (.cons (.structS 1 (.cons (.leafS 5) .nil))
      (.cons (.listS (.cons (.structS 2 .nil) (.cons (.someS (.structS 3 .nil)) .nil)))
        .nil))

/-- Concrete shape falsifying C1 as stated: a derived struct root whose
children are a scalar leaf node and a derived enum node — two nodes §4.1
says must be offered to the visitor but the code never offers. -/
def cxTreeC1 : Shape :=
  .structS 0 (.cons (.leafS 1) (.cons (.enumS 2 .nil) .nil))

/-- Two hash-map entry lists, different keys, identical values. -/
def esA : EntryList := .econs 1 (.structS 4 .nil) .enil

/-- Second entry list with the same values as `esA` under other keys. -/
def esB : EntryList := .econs 9 (.structS 4 .nil) .enil

/-- Key-sorted entry list, the stored order of a `BTreeMap`. -/
def esS : EntryList := .econs 3 (.structS 4 .nil) (.econs 8 (.structS 6 .nil) .enil)

/-! ### Helper lemmas -/

mutual

theorem Shape.specPre_length : ∀ t : Shape, (Shape.specPre t).length = Shape.countNodes t
  | .structS i fs => by
      simp [Shape.specPre, Shape.countNodes, ShapeList.specPreL_length fs]
      omega
  | .enumS i fs => by
      simp [Shape.specPre, Shape.countNodes, ShapeList.specPreL_length fs]
      omega
  | .someS s => by simp [Shape.specPre, Shape.countNodes, Shape.specPre_length s]
  | .noneS => rfl
  | .okS s => by simp [Shape.specPre, Shape.countNodes, Shape.specPre_length s]
  | .errS s => by simp [Shape.specPre, Shape.countNodes, Shape.specPre_length s]
  | .boxS s => by simp [Shape.specPre, Shape.countNodes, Shape.specPre_length s]
  | .listS es => by simp [Shape.specPre, Shape.countNodes, ShapeList.specPreL_length es]
  | .btreeS es => by simp [Shape.specPre, Shape.countNodes, EntryList.specPreE_length es]
  | .hashS es => by simp [Shape.specPre, Shape.countNodes, EntryList.specPreE_length es]
  | .leafS _ => rfl

theorem ShapeList.specPreL_length :
    ∀ ts : ShapeList, (ShapeList.specPreL ts).length = ShapeList.countNodesL ts
  | .nil => rfl
  | .cons t ts => by
      simp [ShapeList.specPreL, ShapeList.countNodesL, Shape.specPre_length t,
        ShapeList.specPreL_length ts]

theorem EntryList.specPreE_length :
    ∀ es : EntryList, (EntryList.specPreE es).length = EntryList.countNodesE es
  | .enil => rfl
  | .econs _ v ts => by
      simp [EntryList.specPreE, EntryList.countNodesE, Shape.specPre_length v,
        EntryList.specPreE_length ts]

end

mutual

theorem Shape.acceptSeq_length :
    ∀ t : Shape, (Shape.acceptSeq t).length = Shape.countStructs t
  | .structS _ fs => by
      simp [Shape.acceptSeq, Shape.countStructs, ShapeList.acceptSeqL_length fs]
      omega
  | .enumS _ fs => by
      simp [Shape.acceptSeq, Shape.countStructs, ShapeList.acceptSeqL_length fs]
  | .someS s => by simp [Shape.acceptSeq, Shape.countStructs, Shape.acceptSeq_length s]
  | .noneS => rfl
  | .okS s => by simp [Shape.acceptSeq, Shape.countStructs, Shape.acceptSeq_length s]
  | .errS s => by simp [Shape.acceptSeq, Shape.countStructs, Shape.acceptSeq_length s]
  | .boxS s => by simp [Shape.acceptSeq, Shape.countStructs, Shape.acceptSeq_length s]
  | .listS es => by simp [Shape.acceptSeq, Shape.countStructs, ShapeList.acceptSeqL_length es]
  | .btreeS es => by simp [Shape.acceptSeq, Shape.countStructs, EntryList.acceptSeqE_length es]
  | .hashS es => by simp [Shape.acceptSeq, Shape.countStructs, EntryList.acceptSeqE_length es]
  | .leafS _ => rfl

theorem ShapeList.acceptSeqL_length :
    ∀ ts : ShapeList, (ShapeList.acceptSeqL ts).length = ShapeList.countStructsL ts
  | .nil => rfl
  | .cons t ts => by
      simp [ShapeList.acceptSeqL, ShapeList.countStructsL, Shape.acceptSeq_length t,
        ShapeList.acceptSeqL_length ts]

theorem EntryList.acceptSeqE_length :
    ∀ es : EntryList, (EntryList.acceptSeqE es).length = EntryList.countStructsE es
  | .enil => rfl
  | .econs _ v ts => by
      simp [EntryList.acceptSeqE, EntryList.countStructsE, Shape.acceptSeq_length v,
        EntryList.acceptSeqE_length ts]

end

mutual

theorem Shape.amSpec_eq :
    ∀ (t : Shape) (acc : List Nat), Shape.amSpec t acc = Shape.acceptSeq t ++ acc
  | .structS i fs, acc => by
      simp [Shape.amSpec, Shape.acceptSeq, ShapeList.amSpecL_eq fs acc]
  | .enumS _ fs, acc => by
      simp [Shape.amSpec, Shape.acceptSeq, ShapeList.amSpecL_eq fs acc]
  | .someS s, acc => by simp [Shape.amSpec, Shape.acceptSeq, Shape.amSpec_eq s acc]
  | .noneS, acc => rfl
  | .okS s, acc => by simp [Shape.amSpec, Shape.acceptSeq, Shape.amSpec_eq s acc]
  | .errS s, acc => by simp [Shape.amSpec, Shape.acceptSeq, Shape.amSpec_eq s acc]
  | .boxS s, acc => by simp [Shape.amSpec, Shape.acceptSeq, Shape.amSpec_eq s acc]
  | .listS es, acc => by simp [Shape.amSpec, Shape.acceptSeq, ShapeList.amSpecL_eq es acc]
  | .btreeS es, acc => by simp [Shape.amSpec, Shape.acceptSeq, EntryList.amSpecE_eq es acc]
  | .hashS es, acc => by simp [Shape.amSpec, Shape.acceptSeq, EntryList.amSpecE_eq es acc]
  | .leafS _, acc => rfl

theorem ShapeList.amSpecL_eq :
    ∀ (ts : ShapeList) (acc : List Nat),
      ShapeList.amSpecL ts acc = ShapeList.acceptSeqL ts ++ acc
  | .nil, acc => rfl
  | .cons t ts, acc => by
      simp [ShapeList.amSpecL, ShapeList.acceptSeqL, Shape.amSpec_eq t,
        ShapeList.amSpecL_eq ts acc]

theorem EntryList.amSpecE_eq :
    ∀ (es : EntryList) (acc : List Nat),
      EntryList.amSpecE es acc = EntryList.acceptSeqE es ++ acc
  | .enil, acc => rfl
  | .econs _ v ts, acc => by
      simp [EntryList.amSpecE, EntryList.acceptSeqE, Shape.amSpec_eq v,
        EntryList.amSpecE_eq ts acc]

end

theorem fget_fmod_ne (f : NTree → NTree) :
    ∀ (cs : NForest) (i j : Nat), j ≠ i → fget (fmod f i cs) j = fget cs j
  | .fnil, 0, _, _ => rfl
  | .fnil, _ + 1, _, _ => rfl
  | .fcons _ _, 0, 0, h => absurd rfl h
  | .fcons _ _, 0, _ + 1, _ => rfl
  | .fcons _ _, _ + 1, 0, _ => rfl
  | .fcons _ ts, i + 1, j + 1, h =>
    fget_fmod_ne f ts i j (fun e => h (by rw [e]))

theorem fget_fmod_eq (f : NTree → NTree) :
    ∀ (cs : NForest) (i : Nat), fget (fmod f i cs) i = (fget cs i).map f
  | .fnil, 0 => rfl
  | .fnil, _ + 1 => rfl
  | .fcons _ _, 0 => rfl
  | .fcons _ ts, i + 1 => fget_fmod_eq f ts i

theorem fmod_id (f : NTree → NTree) :
    ∀ (i : Nat) (cs : NForest), (∀ c, fget cs i = some c → f c = c) → fmod f i cs = cs
  | 0, .fnil, _ => rfl
  | _ + 1, .fnil, _ => rfl
  | 0, .fcons t ts, h => by
    simp only [fmod]
    rw [h t rfl]
  | i + 1, .fcons t ts, h => by
    simp only [fmod]
    rw [fmod_id f i ts (fun c hc => h c hc)]

theorem obsAt_sendTo_ne (H : Nat → Option (Nat → Nat)) :
    ∀ (p q : List Nat) (t : NTree), q ≠ p → obsAt q (sendTo H p t) = obsAt q t
  | [], [], _, h => absurd rfl h
  | [], _ :: _, .mk _ _ _, _ => rfl
  | _ :: _, [], .mk _ _ _, _ => rfl
  | i :: p, j :: q, .mk k s cs, h => by
    by_cases hji : j = i
    · subst hji
      have hq : q ≠ p := fun e => h (by rw [e])
      simp only [sendTo, modAt, obsAt, getAt, fget_fmod_eq]
      cases hc : fget cs j with
      | none => rfl
      | some c =>
        simpa [obsAt] using obsAt_sendTo_ne H p q c hq
    · simp only [sendTo, modAt, obsAt, getAt, fget_fmod_ne _ cs i j hji]

theorem obsAt_sendSub_out (H : Nat → Option (Nat → Nat)) :
    ∀ (p q : List Nat) (t : NTree), leadsTo p q = false → obsAt q (sendSub H p t) = obsAt q t
  | [], _, _, h => by simp [leadsTo] at h
  | _ :: _, [], .mk _ _ _, _ => rfl
  | i :: p, j :: q, .mk k s cs, h => by
    by_cases hji : j = i
    · subst hji
      have hq : leadsTo p q = false := by
        simpa [leadsTo] using h
      simp only [sendSub, modAt, obsAt, getAt, fget_fmod_eq]
      cases hc : fget cs j with
      | none => rfl
      | some c =>
        simpa [obsAt] using obsAt_sendSub_out H p q c hq
    · simp only [sendSub, modAt, obsAt, getAt, fget_fmod_ne _ cs i j hji]

theorem fget_bcastF (H : Nat → Option (Nat → Nat)) :
    ∀ (cs : NForest) (i : Nat), fget (bcastF H cs) i = (fget cs i).map (bcast H)
  | .fnil, _ => rfl
  | .fcons _ _, 0 => rfl
  | .fcons _ ts, i + 1 => fget_bcastF H ts i

theorem obsAt_bcast_nocap (H : Nat → Option (Nat → Nat)) :
    ∀ (p : List Nat) (t : NTree) (n : NTree), getAt p t = some n →
      H (NTree.kind n) = none → obsAt p (bcast H t) = obsAt p t
  | [], .mk k s cs, n, hn, hk => by
    simp only [getAt, Option.some_inj] at hn
    subst hn
    simp only [NTree.kind] at hk
    simp [obsAt, getAt, bcast, NTree.kind, NTree.state, recv, hk]
  | i :: p, .mk k s cs, n, hn, hk => by
    simp only [getAt] at hn
    cases hc : fget cs i with
    | none => simp [hc] at hn
    | some c =>
      simp only [hc] at hn
      simp only [obsAt, getAt, bcast, fget_bcastF, hc, Option.map_some]
      simpa [obsAt] using obsAt_bcast_nocap H p c n hn hk

mutual

theorem bcast_nocap (H : Nat → Option (Nat → Nat)) :
    ∀ t : NTree, (∀ k, k ∈ kindsIn t → H k = none) → bcast H t = t
  | .mk k s cs, h => by
    have hk : H k = none := h k (by simp [kindsIn])
    have hcs : bcastF H cs = cs :=
      bcastF_nocap H cs fun k' hk' => h k' (by simp [kindsIn, hk'])
    simp [bcast, recv, hk, hcs]

theorem bcastF_nocap (H : Nat → Option (Nat → Nat)) :
    ∀ cs : NForest, (∀ k, k ∈ kindsInF cs → H k = none) → bcastF H cs = cs
  | .fnil, _ => rfl
  | .fcons t ts, h => by
    have ht : bcast H t = t :=
      bcast_nocap H t fun k hk => h k (by simp [kindsInF, hk])
    have hts : bcastF H ts = ts :=
      bcastF_nocap H ts fun k hk => h k (by simp [kindsInF, hk])
    simp [bcastF, ht, hts]

end

theorem sendTo_nocap (H : Nat → Option (Nat → Nat)) :
    ∀ (p : List Nat) (t : NTree),
      (∀ n, getAt p t = some n → H (NTree.kind n) = none) → sendTo H p t = t
  | [], .mk k s cs, h => by
    have hk : H k = none := by
      simpa [NTree.kind] using h (.mk k s cs) rfl
    simp [sendTo, modAt, visitOne, recv, hk]
  | i :: p, .mk k s cs, h => by
    simp only [sendTo, modAt]
    rw [fmod_id]
    intro c hc
    exact sendTo_nocap H p c fun n hn => h n (by simp [getAt, hc, hn])

mutual

theorem sendM_const (HM : Nat → Option (Nat → Nat → Nat × Nat))
    (hp : ∀ k f, HM k = some f → ∀ s mm, (f s mm).2 = mm) :
    ∀ (t : NTree) (m : Nat),
      (∀ x ∈ (sendM HM t m).2.1, x = m) ∧ (sendM HM t m).2.2 = m
  | .mk k s cs, m => by
    cases hk : HM k with
    | none =>
      have ih := sendMF_const HM hp cs m
      simp only [sendM, hk]
      exact ih
    | some f =>
      have hm2 : (f s m).2 = m := hp k f hk s m
      have ih := sendMF_const HM hp cs (f s m).2
      rw [hm2] at ih
      simp only [sendM, hk, hm2, List.mem_cons]
      constructor
      · rintro x (rfl | hx)
        · rfl
        · exact ih.1 x hx
      · exact ih.2

theorem sendMF_const (HM : Nat → Option (Nat → Nat → Nat × Nat))
    (hp : ∀ k f, HM k = some f → ∀ s mm, (f s mm).2 = mm) :
    ∀ (cs : NForest) (m : Nat),
      (∀ x ∈ (sendMF HM cs m).2.1, x = m) ∧ (sendMF HM cs m).2.2 = m
  | .fnil, m => by simp [sendMF]
  | .fcons t ts, m => by
    have iht := sendM_const HM hp t m
    have ihts := sendMF_const HM hp ts (sendM HM t m).2.2
    simp only [sendMF, List.mem_append]
    constructor
    · rintro x (hx | hx)
      · exact iht.1 x hx
      · exact (ihts.1 x hx).trans iht.2
    · exact ihts.2.trans iht.2

end

theorem acceptSeqE_eq_seqOfValues :
    ∀ es : EntryList, EntryList.acceptSeqE es = seqOfValues (EntryList.valuesE es)
  | .enil => rfl
  | .econs _ v ts => by
    simp [EntryList.acceptSeqE, EntryList.valuesE, seqOfValues,
      acceptSeqE_eq_seqOfValues ts]

theorem sortE_of_sortedE : ∀ es : EntryList, sortedE es = true → sortE es = es
  | .enil, _ => rfl
  | .econs k v .enil, _ => rfl
  | .econs k v (.econs k' v' ts), h => by
    simp only [sortedE, Bool.and_eq_true, decide_eq_true_eq] at h
    have ih := sortE_of_sortedE (.econs k' v' ts) h.2
    simp only [sortE] at ih ⊢
    rw [ih]
    simp [insE, Nat.le_of_lt h.1]

/-! ### The claims -/

/-- C1 counterexample: the claim that a broadcast invokes the visitor on
each node exactly once, in the spec pre-order, is false on the code: on
`cxTreeC1` — a struct node 0 whose children are a leaf/scalar node 1 and
an enum node 2 — the visit sequence is [0], not the spec pre-order
[0, 1, 2], and its length 1 undercounts the tree's 3 nodes: the blanket
no-op `accept` never offers a leaf (spec §4.1 applies step (a) to leaves
too) and the generated enum `accept` never offers the enum node. -/
theorem c1_counterexample :
    ¬ (Shape.acceptSeq cxTreeC1 = Shape.specPre cxTreeC1 ∧
        (Shape.acceptSeq cxTreeC1).length = Shape.countNodes cxTreeC1) := by
  decide

/-- C1 amended: for every tree and every payload type (the visit sequence
is payload-independent), a broadcast (`Framework::send` /
`Context::broadcast`) offers exactly the derive-generated struct nodes to
the visitor, in pre-order — each struct node before the nodes of its
subtree, children traversed in declared field/iteration order — and once
each: the sequence's length is the number of struct nodes.  Enum nodes
and leaf/scalar nodes are traversed but never themselves offered. -/
theorem c1_broadcast_struct_preorder (t : Shape) :
    Shape.acceptSeq t = Shape.amSpec t [] ∧
      (Shape.acceptSeq t).length = Shape.countStructs t :=
  ⟨by rw [Shape.amSpec_eq, List.append_nil], Shape.acceptSeq_length t⟩

/-- C2: in scenario C — all counters start at 2, `ChildChild`'s
`Increment` handler broadcasts `Decrement(1)` through its `Context` after
adding — a `Framework::send` of `Increment(1)` ends with counters
(Root, Child, ChildChild) = (3, 2, 3): the nested `Decrement` broadcast
runs to completion during `ChildChild`'s handler, after `Child` has
already been incremented. -/
theorem c2_reentrant_scenario :
    ScenC.sendInc 1 { counter := 2, child := { counter := 2, child := { counter := 2 } } } =
      { counter := 3, child := { counter := 2, child := { counter := 3 } } } := rfl

/-- C3 counterexample: the claim that every handler receives an immutable
view — all nodes visited within one traversal observe the same payload
content and no handler can alter the message seen by later nodes — is
false: `Receiver::receive` takes `message: &mut T`, so with `HMmut` (whose
kind-0 root handler bumps the message) over `tMut`, the later-visited
kind-1 child observes 6 while the dispatch started with 5. -/
theorem c3_counterexample :
    ¬ ∀ (HM : Nat → Option (Nat → Nat → Nat × Nat)) (t : NTree) (m : Nat),
        (∀ x ∈ (sendM HM t m).2.1, x = m) ∧ (sendM HM t m).2.2 = m := by
  intro hclaim
  have h6 : (6 : Nat) = 5 := (hclaim HMmut tMut 5).1 6 (by decide)
  exact absurd h6 (by decide)

/-- C3 amended: every handler receives the payload by mutable reference,
so a handler can alter the message later-visited nodes observe; when every
handler leaves the message unchanged, all reacting nodes observe the
initial content and the message survives the traversal unchanged. -/
theorem c3_mutable_message_view (HM : Nat → Option (Nat → Nat → Nat × Nat))
    (hp : ∀ k f, HM k = some f → ∀ s mm, (f s mm).2 = mm) (t : NTree) (m : Nat) :
    (∀ x ∈ (sendM HM t m).2.1, x = m) ∧ (sendM HM t m).2.2 = m :=
  sendM_const HM hp t m

theorem c3_mutable_message_view_witness :
    (∀ x ∈ (sendM HMw tMut 4).2.1, x = 4) ∧ (sendM HMw tMut 4).2.2 = 4 :=
  c3_mutable_message_view HMw
    (by
      intro k f hf s mm
      by_cases hk : k = 0
      · subst hk
        have hg : (fun s m => (s + m, m)) = f := Option.some.inj hf
        subst hg
        rfl
      · simp [HMw, hk] at hf)
    tMut 4

/-- C4 counterexample: for an enum node the generated `accept`
(send-derive/src/lib.rs lines 60-105) matches on the active variant and
recurses into its fields without ever calling `visitor.visit(self)`: an
enum node labelled 5 holding one struct field labelled 7 yields visit
sequence [7], not the spec's pre-order [5, 7] in which the node offers
itself first. -/
theorem c4_counterexample :
    ¬ Shape.acceptSeq
        (Shape.enumS 5 (ShapeList.cons (Shape.structS 7 ShapeList.nil) ShapeList.nil)) =
      Shape.specPre
        (Shape.enumS 5 (ShapeList.cons (Shape.structS 7 ShapeList.nil) ShapeList.nil)) := by
  decide

/-- C4 amended: `accept` offers a derived struct node to the visitor first
and then recurses into its children in declared order (active-variant
fields for an enum, container elements in iteration order) — but a derived
enum node only recurses into the active variant's fields and is never
itself offered to the visitor. -/
theorem c4_accept_offers_struct_not_enum (t : Shape) :
    Shape.acceptSeq t = Shape.amSpec t [] := by
  rw [Shape.amSpec_eq, List.append_nil]

/-- C5: a targeted send (`Framework::send_to`) changes the observable
(kind, state) of no position other than the selected one — children of the
target, siblings and every other node keep their observable state; a
subtree send (`Framework::send_sub`) changes no position outside the
selected subtree.  Handlers here mutate the node they run on (`&mut
self`), the non-reentrant fragment. -/
theorem c5_targeted_isolation :
    (∀ (H : Nat → Option (Nat → Nat)) (p q : List Nat) (t : NTree),
        q ≠ p → obsAt q (sendTo H p t) = obsAt q t) ∧
      (∀ (H : Nat → Option (Nat → Nat)) (p q : List Nat) (t : NTree),
        leadsTo p q = false → obsAt q (sendSub H p t) = obsAt q t) :=
  ⟨fun H p q t h => obsAt_sendTo_ne H p q t h,
   fun H p q t h => obsAt_sendSub_out H p q t h⟩

theorem c5_targeted_isolation_witness :
    obsAt [0] (sendTo Hex [] tEx) = obsAt [0] tEx ∧
      obsAt [1] (sendSub Hex [0] tEx) = obsAt [1] tEx :=
  ⟨c5_targeted_isolation.1 Hex [] [0] tEx (by decide),
   c5_targeted_isolation.2 Hex [0] [1] tEx (by decide)⟩

/-- C6: a node whose type has no reception capability for the dispatched
payload (its `H` entry is `none`: only the blanket default no-op `receive`
applies) keeps its observable state under a broadcast of that payload; and
when no kind anywhere in the tree has a capability, the broadcast returns
the tree unchanged — `bcast` is a total function, so no error arises. -/
theorem c6_noop_default :
    (∀ (H : Nat → Option (Nat → Nat)) (p : List Nat) (t n : NTree),
        getAt p t = some n → H (NTree.kind n) = none →
          obsAt p (bcast H t) = obsAt p t) ∧
      (∀ (H : Nat → Option (Nat → Nat)) (t : NTree),
        (∀ k, k ∈ kindsIn t → H k = none) → bcast H t = t) :=
  ⟨fun H p t n h1 h2 => obsAt_bcast_nocap H p t n h1 h2,
   fun H t h => bcast_nocap H t h⟩

theorem c6_noop_default_witness :
    obsAt [0] (bcast Hc6 tEx) = obsAt [0] tEx ∧ bcast Hnone tEx = tEx :=
  ⟨c6_noop_default.1 Hc6 [0] tEx (NTree.mk 1 5 NForest.fnil) rfl rfl,
   c6_noop_default.2 Hnone tEx (fun _ _ => rfl)⟩

/-- C7: the `with` variants are the stated compositions — `send_with` is
`fields = selector(root)` (the `F: NotActor` bound statically checking the
fields non-reactive) followed by a broadcast of `creator(fields)`, and
`send_to_with` / `send_sub_with` are the check followed by the targeted
and subtree sends; concretely, with the non-reactive field `data.data = 1`,
`send_with(|root| &root.data, |data| Increment(data.data))` increments
every reacting node's counter by 1. -/
theorem c7_send_with_composition :
    (∀ (F : Type) (sel : TestTree.Root → F) (cr : F → Nat) (r : TestTree.Root),
        TestTree.sendWith sel cr r = TestTree.sendInc (cr (sel r)) r) ∧
      (∀ (F : Type) (sel : TestTree.Root → F) (cr : F → Nat)
          (g : TestTree.Target) (r : TestTree.Root),
        TestTree.sendToWith sel cr g r = TestTree.sendIncTo (cr (sel r)) g r) ∧
      (∀ (F : Type) (sel : TestTree.Root → F) (cr : F → Nat)
          (g : TestTree.Target) (r : TestTree.Root),
        TestTree.sendSubWith sel cr g r = TestTree.sendIncSub (cr (sel r)) g r) ∧
      (∀ a b c : Nat, a < 65535 → b < 65535 → c < 65535 →
        TestTree.sendWith (fun root => root.data) (fun d => d.data)
            { data := { data := 1 }, counter := a,
              child := { counter := b, child := { counter := c } } } =
          { data := { data := 1 }, counter := a + 1,
            child := { counter := b + 1, child := { counter := c + 1 } } }) := by
  refine ⟨fun _ _ _ _ => rfl, fun _ _ _ _ _ => rfl, fun _ _ _ _ _ => rfl, ?_⟩
  intro a b c ha hb hc
  have h16 : ∀ x : Nat, x < 65535 → add16 x 1 = x + 1 := fun x hx => by
    simp [add16, Nat.mod_eq_of_lt (by omega : x + 1 < 65536)]
  simp [TestTree.sendWith, TestTree.sendInc, h16 a ha, h16 b hb, h16 c hc]

theorem c7_send_with_composition_witness :
    TestTree.sendWith (fun root => root.data) (fun d => d.data)
        { data := { data := 1 }, counter := 1,
          child := { counter := 2, child := { counter := 3 } } } =
      { data := { data := 1 }, counter := 2,
        child := { counter := 3, child := { counter := 4 } } } :=
  c7_send_with_composition.2.2.2 1 2 3 (by decide) (by decide) (by decide)

/-- C8 counterexample: the claim that a targeted send to a node type
without a reception capability for the payload is rejected at composition
time — and is not a runtime outcome — is false: the blanket
`impl<M, R, T> Receiver<M, R> for T` (send/src/actor.rs lines 53-58)
satisfies the bound for every type, so trait resolution yields the default
no-op impl rather than failing, and the call runs to a defined runtime
outcome: the tree unchanged. -/
theorem c8_counterexample :
    resolveReceiver Hnone 0 ≠ none ∧
      sendTo Hnone [] (NTree.mk 0 3 NForest.fnil) = NTree.mk 0 3 NForest.fnil :=
  ⟨by simp [resolveReceiver, Hnone], rfl⟩

/-- C8 amended: the reception bound resolves for every (payload, node
type) pair thanks to the blanket default impl, so the call composes; at
runtime a targeted send whose selected node's type has no specialized
`Receiver` impl leaves the tree unchanged — a silent no-op, not an
error. -/
theorem c8_blanket_receiver_accepts :
    (∀ (H : Nat → Option (Nat → Nat)) (k : Nat), resolveReceiver H k ≠ none) ∧
      (∀ (H : Nat → Option (Nat → Nat)) (p : List Nat) (t : NTree),
        (∀ n, getAt p t = some n → H (NTree.kind n) = none) → sendTo H p t = t) :=
  ⟨fun H k => by unfold resolveReceiver; cases H k <;> simp,
   fun H p t h => sendTo_nocap H p t h⟩

theorem c8_blanket_receiver_accepts_witness :
    resolveReceiver Hnone 5 ≠ none ∧ sendTo Hnone [0] tEx = tEx :=
  ⟨c8_blanket_receiver_accepts.1 Hnone 5,
   c8_blanket_receiver_accepts.2 Hnone [0] tEx (fun _ _ => rfl)⟩

/-- C9: dispatch is deterministic — equal tree states yield the same
visit (hence handler) sequence and equal final states — and keyed
containers are visited in the container's natural iteration order with
keys never visited: a hash map's visit sequence is a function of its
values alone in stored (layout) iteration order, and a `BTreeMap` (whose
stored order satisfies the ascending-key invariant) is visited exactly in
ascending key order, the order insertion sort by key produces. -/
theorem c9_deterministic_dispatch :
    (∀ t₁ t₂ : Shape, t₁ = t₂ → Shape.acceptSeq t₁ = Shape.acceptSeq t₂) ∧
      (∀ (H : Nat → Option (Nat → Nat)) (u₁ u₂ : NTree),
        u₁ = u₂ → bcast H u₁ = bcast H u₂) ∧
      (∀ es es' : EntryList, EntryList.valuesE es = EntryList.valuesE es' →
        Shape.acceptSeq (Shape.hashS es) = Shape.acceptSeq (Shape.hashS es')) ∧
      (∀ es : EntryList, sortedE es = true →
        Shape.acceptSeq (Shape.btreeS es) = EntryList.acceptSeqE (sortE es)) :=
  ⟨fun _ _ h => by rw [h],
   fun H _ _ h => by rw [h],
   fun es es' h => by
     simp [Shape.acceptSeq, acceptSeqE_eq_seqOfValues, h],
   fun es h => by
     simp [Shape.acceptSeq, sortE_of_sortedE es h]⟩

theorem c9_deterministic_dispatch_witness :
    Shape.acceptSeq exTreeA = Shape.acceptSeq exTreeA ∧
      bcast Hnone tEx = bcast Hnone tEx ∧
      Shape.acceptSeq (Shape.hashS esA) = Shape.acceptSeq (Shape.hashS esB) ∧
      Shape.acceptSeq (Shape.btreeS esS) = EntryList.acceptSeqE (sortE esS) :=
  ⟨c9_deterministic_dispatch.1 exTreeA exTreeA rfl,
   c9_deterministic_dispatch.2.1 Hnone tEx tEx rfl,
   c9_deterministic_dispatch.2.2.1 esA esB rfl,
   c9_deterministic_dispatch.2.2.2 esS (by decide)⟩

/-- C10 (evaluating the code at the failing input): the derive-generated
composites and the container adapters recurse structurally (`acceptSeq`
is a total function), but the reference adapters do not delegate to the
referent: the body `self.accept(visitor)` of
`unsafe impl<T> Actor for &T` resolves to `<&T as Actor>::accept` itself
(its self parameter type `&mut &T` is exactly the receiver's type), and
likewise for `&mut T` — so a call to `accept` on a reference field never
returns: it exhausts any finite stack budget. -/
theorem c10_ref_accept_never_returns : ∀ fuel : Nat, refAccept fuel = none
  | 0 => rfl
  | fuel + 1 => c10_ref_accept_never_returns fuel

end Send
